import Mathlib

set_option maxRecDepth 8192

/-!
Verification of the extractable algorithmic core of the SimpleITK-Notebooks
repository: the multi-orientation registration-initialization search
(notebook section on MetricEvaluate and the exhaustive optimizer) and the
least-squares sphere fitter (segmentation notebook, edge-detection cell).

Conventions of the shallow embedding:
* Rotation angles are measured in quarter turns (units of pi/2 radians), as
  exact integers: the source value np.pi/2.0 is embedded as 1, np.pi as 2,
  -np.pi as -2, -np.pi/2.0 as -1.  Every angle occurring in the source is
  such an integer multiple of pi/2.
* Similarity-metric values and point coordinates are exact rationals (the
  source uses floats).
* The external similarity evaluator (registration_method.MetricEvaluate)
  is an explicit function argument; the external least-squares solver
  (scipy linalg.lstsq) is likewise an explicit function argument.
-/

/-- A rotation candidate: the triple (angle_x, angle_y, angle_z), each angle
being an integer number of quarter turns (units of pi/2 radians). -/
abbrev Rot : Type := ℤ × ℤ × ℤ

/-- State of a sitk.Euler3DTransform as used by the initialization search:
a rotation triple plus a translation triple.  Centering parameters and the
matrix representation are owned by the external library and not needed by
the search logic. -/
structure Euler3DTransform where
  rotation : Rot
  translation : ℚ × ℚ × ℚ
deriving DecidableEq

/-- The Python call initial_transform.SetRotation(*orientation): replaces the
rotation parameters, leaving the translation untouched. -/
def setRotation (t : Euler3DTransform) (r : Rot) : Euler3DTransform :=
  { t with rotation := r }

/-- Modelled from the spec: sitk.CenteredTransformInitializer is external; the
spec states the translation component is "typically derived from aligning
image centers/centroids" and that the catalogue search starts from the
identity rotation.  We model its output as an Euler3DTransform with identity
rotation and an arbitrary (parameter) translation. -/
def centeredTransformInitializer (tr : ℚ × ℚ × ℚ) : Euler3DTransform :=
  ⟨(0, 0, 0), tr⟩

/-- The all_orientations dictionary of the notebook, in source order.  The
angle values are the source values in quarter turns: np.pi/2.0 becomes 1,
np.pi becomes 2, -np.pi becomes -2, -np.pi/2.0 becomes -1.  Note the entry
keyed "x=0, y=0, z=-90" carries the angle triple (0, 0, -pi), i.e.
(0, 0, -2) quarter turns, exactly as in the source. -/
def allOrientations : List (String × Rot) :=
  [("x=0, y=0, z=90", (0, 0, 1)),
   ("x=0, y=0, z=-90", (0, 0, -2)),
   ("x=0, y=0, z=180", (0, 0, 2)),
   ("x=180, y=0, z=0", (2, 0, 0)),
   ("x=180, y=0, z=90", (2, 0, 1)),
   ("x=180, y=0, z=-90", (2, 0, -1)),
   ("x=180, y=0, z=180", (2, 0, 2))]

/-- One iteration of the orientation-search loop.  The loop state is the
shared transform object together with the (best_orientation,
best_similarity_value) accumulator.  The body sets the rotation on the
transform, evaluates the metric, and replaces the accumulator exactly when
the new value is strictly smaller. -/
def orientationStep (ev : Euler3DTransform → ℚ)
    (st : Euler3DTransform × Rot × ℚ) (orientation : Rot) :
    Euler3DTransform × Rot × ℚ :=
  let t := setRotation st.1 orientation
  let v := ev t
  if v < st.2.2 then (t, orientation, v) else (t, st.2)

/-- The MetricEvaluate orientation search of the notebook: seed the best with
the identity rotation (0,0,0) and the metric value of the initial transform,
fold the loop body over the catalogue, then write the best rotation back into
the transform.  Returns the final transform and the best similarity value. -/
def metricEvaluateSearch (initial : Euler3DTransform) (catalogue : List Rot)
    (ev : Euler3DTransform → ℚ) : Euler3DTransform × ℚ :=
  let st := List.foldl (orientationStep ev)
    (initial, ((0, 0, 0) : Rot), ev initial) catalogue
  (setRotation st.1 st.2.1, st.2.2)

/-- Rotation-level view of the loop body, acting only on the accumulator. -/
def bestStep (g : Rot → ℚ) (b : Rot × ℚ) (r : Rot) : Rot × ℚ :=
  if g r < b.2 then (r, g r) else b

lemma setRotation_setRotation (t : Euler3DTransform) (a b : Rot) :
    setRotation (setRotation t a) b = setRotation t b := rfl

lemma setRotation_translation (t : Euler3DTransform) (r : Rot) :
    (setRotation t r).translation = t.translation := rfl

/-- The transform component of the loop state never changes its translation. -/
lemma foldl_orientationStep_translation (ev : Euler3DTransform → ℚ) :
    ∀ (l : List Rot) (t : Euler3DTransform) (p : Rot × ℚ),
      (List.foldl (orientationStep ev) (t, p) l).1.translation = t.translation := by
  intro l
  induction l with
  | nil => intro t p; rfl
  | cons r l ih =>
    intro t p
    show (List.foldl (orientationStep ev) (orientationStep ev (t, p) r) l).1.translation = _
    have hstep : orientationStep ev (t, p) r
        = (setRotation t r, bestStep (fun x => ev (setRotation t x)) p r) := by
      simp only [orientationStep, bestStep]
      split <;> rfl
    rw [hstep, ih]
    rfl

/-- The accumulator component of the stateful loop coincides with the pure
rotation-level fold, because the transform only ever communicates its (fixed)
translation to the evaluator. -/
lemma foldl_orientationStep_snd (ev : Euler3DTransform → ℚ) :
    ∀ (l : List Rot) (t : Euler3DTransform) (p : Rot × ℚ),
      (List.foldl (orientationStep ev) (t, p) l).2
        = List.foldl (bestStep (fun r => ev (setRotation t r))) p l := by
  intro l
  induction l with
  | nil => intro t p; rfl
  | cons r l ih =>
    intro t p
    show (List.foldl (orientationStep ev) (orientationStep ev (t, p) r) l).2 = _
    have hstep : orientationStep ev (t, p) r
        = (setRotation t r, bestStep (fun x => ev (setRotation t x)) p r) := by
      simp only [orientationStep, bestStep]
      split <;> rfl
    rw [hstep, ih]
    simp only [List.foldl_cons, setRotation_setRotation]

/-- Closed form of the search in terms of the rotation-level fold. -/
lemma metricEvaluateSearch_eq (t0 : Euler3DTransform) (cat : List Rot)
    (ev : Euler3DTransform → ℚ) :
    metricEvaluateSearch t0 cat ev
      = (setRotation t0 (List.foldl (bestStep (fun r => ev (setRotation t0 r)))
            (((0, 0, 0) : Rot), ev t0) cat).1,
         (List.foldl (bestStep (fun r => ev (setRotation t0 r)))
            (((0, 0, 0) : Rot), ev t0) cat).2) := by
  have h1 := foldl_orientationStep_translation ev cat t0 (((0, 0, 0) : Rot), ev t0)
  unfold metricEvaluateSearch
  dsimp only
  rw [foldl_orientationStep_snd]
  unfold setRotation
  rw [h1]

/-- The accumulator value never increases along the fold. -/
lemma bestFold_le_init (g : Rot → ℚ) :
    ∀ (l : List Rot) (p : Rot × ℚ),
      (List.foldl (bestStep g) p l).2 ≤ p.2 := by
  intro l
  induction l with
  | nil => intro p; exact le_refl _
  | cons r l ih =>
    intro p
    show (List.foldl (bestStep g) (bestStep g p r) l).2 ≤ p.2
    refine le_trans (ih (bestStep g p r)) ?_
    by_cases h : g r < p.2
    · simp only [bestStep, if_pos h]
      exact le_of_lt h
    · simp only [bestStep, if_neg h]
      exact le_refl _

/-- If no list element strictly beats the seed value, the seed survives. -/
lemma bestFold_seedMin (g : Rot → ℚ) :
    ∀ (l : List Rot) (p : Rot × ℚ),
      (∀ x ∈ l, ¬ g x < p.2) →
      List.foldl (bestStep g) p l = p := by
  intro l
  induction l with
  | nil => intro p _; rfl
  | cons r l ih =>
    intro p h
    show List.foldl (bestStep g) (bestStep g p r) l = p
    have hr : ¬ g r < p.2 := h r (List.mem_cons_self r l)
    rw [show bestStep g p r = p from by simp only [bestStep, if_neg hr]]
    exact ih p (fun x hx => h x (List.mem_cons_of_mem r hx))

/-- The first element that strictly beats the seed and everything before it,
and is never strictly beaten later, is the final accumulator: the strict
less-than comparison resolves exact ties in favour of the earlier element. -/
lemma bestFold_firstMin (g : Rot → ℚ) (r : Rot) (l₂ : List Rot)
    (h₂ : ∀ x ∈ l₂, g r ≤ g x) :
    ∀ (l₁ : List Rot) (p : Rot × ℚ), g r < p.2 →
      (∀ x ∈ l₁, g r < g x) →
      List.foldl (bestStep g) p (l₁ ++ r :: l₂) = (r, g r) := by
  intro l₁
  induction l₁ with
  | nil =>
    intro p hp _
    show List.foldl (bestStep g) (bestStep g p r) l₂ = (r, g r)
    rw [show bestStep g p r = (r, g r) from by simp only [bestStep, if_pos hp]]
    exact bestFold_seedMin g l₂ (r, g r) (fun x hx => not_lt.mpr (h₂ x hx))
  | cons y l₁ ih =>
    intro p hp h₁
    show List.foldl (bestStep g) (bestStep g p y) (l₁ ++ r :: l₂) = (r, g r)
    have hy : g r < (bestStep g p y).2 := by
      by_cases h : g y < p.2
      · simp only [bestStep, if_pos h]
        exact h₁ y (List.mem_cons_self y l₁)
      · simp only [bestStep, if_neg h]
        exact hp
    exact ih (bestStep g p y) hy (fun x hx => h₁ x (List.mem_cons_of_mem y hx))

/-- If one rotation is strictly better than every other list element and than
any differing seed, the fold ends on it. -/
lemma bestFold_uniqueMin (g : Rot → ℚ) (rstar : Rot) :
    ∀ (l : List Rot) (r₀ : Rot),
      (rstar = r₀ ∨ rstar ∈ l) →
      (r₀ ≠ rstar → g rstar < g r₀) →
      (∀ x ∈ l, x ≠ rstar → g rstar < g x) →
      List.foldl (bestStep g) (r₀, g r₀) l = (rstar, g rstar) := by
  intro l
  induction l with
  | nil =>
    intro r₀ hmem _ _
    rcases hmem with h | h
    · rw [h]
      rfl
    · exact absurd h (List.not_mem_nil rstar)
  | cons x l ih =>
    intro r₀ hmem hseed hall
    show List.foldl (bestStep g) (bestStep g (r₀, g r₀) x) l = (rstar, g rstar)
    have hxl : ∀ z ∈ l, z ≠ rstar → g rstar < g z :=
      fun z hz => hall z (List.mem_cons_of_mem x hz)
    by_cases hx : g x < g r₀
    · rw [show bestStep g (r₀, g r₀) x = (x, g x) from by
        simp only [bestStep, if_pos hx]]
      by_cases hxr : x = rstar
      · subst hxr
        exact ih x (Or.inl rfl) (fun h => absurd rfl h) hxl
      · -- x is not the winner; then the seed r₀ could not be the winner either
        have hgx : g rstar < g x := hall x (List.mem_cons_self x l) hxr
        rcases hmem with h | h
        · -- rstar = r₀, but g x < g r₀ = g rstar < g x, contradiction
          exfalso
          rw [← h] at hx
          exact lt_irrefl _ (lt_trans hgx hx)
        · rcases List.mem_cons.mp h with h' | h'
          · exact absurd h'.symm hxr
          · exact ih x (Or.inr h') (fun _ => hgx) hxl
    · rw [show bestStep g (r₀, g r₀) x = (r₀, g r₀) from by
        simp only [bestStep, if_neg hx]]
      rcases hmem with h | h
      · exact ih r₀ (Or.inl h) hseed hxl
      · rcases List.mem_cons.mp h with h' | h'
        · -- x = rstar did not displace the seed, so the seed must be rstar
          subst h'
          by_cases hr₀ : r₀ = rstar
          · exact ih r₀ (Or.inl hr₀.symm) hseed hxl
          · exact absurd (hseed hr₀) hx
        · exact ih r₀ (Or.inr h') hseed hxl

/-- Catalogue of the end-to-end scenario: the candidates (0,0,pi/2),
(pi,0,0), (pi,0,pi/2), in quarter turns. -/
def scenarioCatalogue : List Rot := [(0, 0, 1), (2, 0, 0), (2, 0, 1)]

/-- Scenario evaluator: score 0.3 for the first candidate, 0.9 for the second,
0.5 for the third, 0.8 otherwise (in particular for the identity). -/
def scenarioEval (t : Euler3DTransform) : ℚ :=
  if t.rotation = ((0 : ℤ), (0 : ℤ), (1 : ℤ)) then 3/10
  else if t.rotation = ((2 : ℤ), (0 : ℤ), (0 : ℤ)) then 9/10
  else if t.rotation = ((2 : ℤ), (0 : ℤ), (1 : ℤ)) then 1/2
  else 8/10

/-- C1: the orientation search evaluates the identity rotation first to seed
the running best (an empty catalogue returns the identity rotation with its
score 0.8), and on the catalogue ((0,0,pi/2), (pi,0,0), (pi,0,pi/2)) with
scores identity 0.8, then 0.3, 0.9, 0.5, it returns the first candidate
(0,0,pi/2) with score 0.3: each entry replaces the running best exactly when
its score is strictly smaller. -/
theorem orientationSearch_scenario :
    metricEvaluateSearch (centeredTransformInitializer (0, 0, 0)) [] scenarioEval
      = (⟨(0, 0, 0), (0, 0, 0)⟩, 8/10)
    ∧ metricEvaluateSearch (centeredTransformInitializer (0, 0, 0))
        scenarioCatalogue scenarioEval
      = (⟨(0, 0, 1), (0, 0, 0)⟩, 3/10) := by
  constructor
  · simp +decide only [metricEvaluateSearch, List.foldl, orientationStep,
      setRotation, centeredTransformInitializer, scenarioEval]
    norm_num
  · simp +decide only [metricEvaluateSearch, scenarioCatalogue, List.foldl,
      orientationStep, setRotation, centeredTransformInitializer, scenarioEval]
    norm_num

/-- Rotation-level closed form of the search when the metric surface depends
only on the rotation parameters. -/
lemma metricEvaluateSearch_rotationLevel (tr : ℚ × ℚ × ℚ) (g : Rot → ℚ)
    (cat : List Rot) :
    metricEvaluateSearch (centeredTransformInitializer tr) cat (fun t => g t.rotation)
      = (⟨(List.foldl (bestStep g) (((0, 0, 0) : Rot), g (0, 0, 0)) cat).1, tr⟩,
         (List.foldl (bestStep g) (((0, 0, 0) : Rot), g (0, 0, 0)) cat).2) := by
  rw [metricEvaluateSearch_eq]
  rfl

/-- Per-candidate strategy of the notebook, viewed on a metric surface (the
same deterministic score for each rotation triple): run the MetricEvaluate
loop over the all_orientations catalogue and report the winning rotation and
score. -/
def metricEvaluateStrategy (g : Rot → ℚ) : Rot × ℚ :=
  let res := metricEvaluateSearch (centeredTransformInitializer (0, 0, 0))
    (allOrientations.map Prod.snd) (fun t => g t.rotation)
  (res.1.rotation, res.2)

/-- The x-angle values of the exhaustive optimizer grid: -pi, 0, pi
(numberOfSteps 1, stepLength pi, scale 1), in quarter turns. -/
def gridAngleX : List ℤ := [-2, 0, 2]

/-- The z-angle values of the exhaustive optimizer grid: -pi, -pi/2, 0,
pi/2, pi (numberOfSteps 2, stepLength pi, scale 0.5), in quarter turns. -/
def gridAngleZ : List ℤ := [-2, -1, 0, 1, 2]

/-- The 15-point parameter grid of the SetOptimizerAsExhaustive call:
angle_x in (-pi, 0, pi), angle_y = 0, angle_z in (-pi, -pi/2, 0, pi/2, pi). -/
def exhaustiveGrid : List Rot :=
  gridAngleX.flatMap (fun x => gridAngleZ.map (fun z => (x, 0, z)))

/-- Modelled from the spec: the batched grid-search strategy (the external
exhaustive optimizer) evaluates every grid point and keeps the best-scoring
one, with the same lower-is-better, first-seen-wins convention.  The empty
grid case returns the identity point and is never used. -/
def batchedGridSearch (grid : List Rot) (g : Rot → ℚ) : Rot × ℚ :=
  match grid with
  | [] => (((0, 0, 0) : Rot), g (0, 0, 0))
  | r :: rs => List.foldl (bestStep g) (r, g r) rs

/-- Batched grid-search strategy at the grid of the notebook. -/
def exhaustiveStrategy (g : Rot → ℚ) : Rot × ℚ :=
  batchedGridSearch exhaustiveGrid g

lemma metricEvaluateStrategy_eq (g : Rot → ℚ) :
    metricEvaluateStrategy g
      = List.foldl (bestStep g) (((0, 0, 0) : Rot), g (0, 0, 0))
          (allOrientations.map Prod.snd) := by
  unfold metricEvaluateStrategy
  rw [metricEvaluateSearch_rotationLevel]

/-- A unique strict minimum over the whole grid is found by the batched
search. -/
lemma batchedGridSearch_uniqueMin (grid : List Rot) (g : Rot → ℚ) (rstar : Rot)
    (hne : grid ≠ []) (hmem : rstar ∈ grid)
    (hmin : ∀ x ∈ grid, x ≠ rstar → g rstar < g x) :
    batchedGridSearch grid g = (rstar, g rstar) := by
  cases grid with
  | nil => exact absurd rfl hne
  | cons r₀ rs =>
    show List.foldl (bestStep g) (r₀, g r₀) rs = (rstar, g rstar)
    refine bestFold_uniqueMin g rstar rs r₀ ?_ ?_ ?_
    · rcases List.mem_cons.mp hmem with h | h
      · exact Or.inl h
      · exact Or.inr h
    · intro h
      exact hmin r₀ (List.mem_cons_self r₀ rs) h
    · intro x hx h
      exact hmin x (List.mem_cons_of_mem r₀ hx) h

/-- Metric surface whose minimum sits at the pure -90 degree rotation about
z, the grid point (0, 0, -pi/2) that the catalogue does not contain. -/
def zMinus90Surface : Rot → ℚ :=
  fun r => if r = ((0 : ℤ), (0 : ℤ), (-1 : ℤ)) then 0 else 1

/-- C5 counterexample: on the metric surface minimized exactly at the pure
-90 degree z rotation (0,0,-pi/2) - a grid point that is not in the
catalogue - the per-candidate MetricEvaluate strategy and the batched
15-point grid strategy return different winning rotations, and the grid
strategy finds a strictly better score. -/
theorem strategies_disagree_on_missing_grid_point :
    (metricEvaluateStrategy zMinus90Surface).1 ≠ (exhaustiveStrategy zMinus90Surface).1
    ∧ (exhaustiveStrategy zMinus90Surface).2 < (metricEvaluateStrategy zMinus90Surface).2 := by
  constructor
  · decide
  · decide

/-- C5 (amended): all 8 catalogue-plus-identity rotations lie on the 15-point
grid, and whenever the metric surface attains a unique strict minimum over
the grid at one of the catalogue-plus-identity rotations, the per-candidate
MetricEvaluate strategy and the batched grid strategy return the same winning
rotation with the same score. -/
theorem strategies_agree_on_catalogue_min (g : Rot → ℚ) (rstar : Rot)
    (hmem : rstar ∈ (((0, 0, 0) : Rot) :: allOrientations.map Prod.snd))
    (hmin : ∀ x ∈ exhaustiveGrid, x ≠ rstar → g rstar < g x) :
    metricEvaluateStrategy g = (rstar, g rstar)
    ∧ exhaustiveStrategy g = (rstar, g rstar) := by
  have hsub : ∀ x ∈ (((0, 0, 0) : Rot) :: allOrientations.map Prod.snd),
      x ∈ exhaustiveGrid := by decide
  constructor
  · rw [metricEvaluateStrategy_eq]
    refine bestFold_uniqueMin g rstar (allOrientations.map Prod.snd) (0, 0, 0) ?_ ?_ ?_
    · rcases List.mem_cons.mp hmem with h | h
      · exact Or.inl h
      · exact Or.inr h
    · intro h
      exact hmin (0, 0, 0) (hsub (0, 0, 0) (List.mem_cons_self _ _)) h
    · intro x hx h
      exact hmin x (hsub x (List.mem_cons_of_mem _ hx)) h
  · refine batchedGridSearch_uniqueMin exhaustiveGrid g rstar (by decide)
      (hsub rstar hmem) hmin

/-- Metric surface with a unique minimum at the catalogue rotation
(pi, 0, pi/2). -/
def catalogueMinSurface : Rot → ℚ :=
  fun r => if r = ((2 : ℤ), (0 : ℤ), (1 : ℤ)) then 0 else 1

/-- Witness for the amended C5 at a concrete surface: both strategies return
the catalogue rotation (pi, 0, pi/2) with score 0. -/
theorem strategies_agree_on_catalogue_min_witness :
    metricEvaluateStrategy catalogueMinSurface = ((2, 0, 1), 0)
    ∧ exhaustiveStrategy catalogueMinSurface = ((2, 0, 1), 0) := by
  have H := strategies_agree_on_catalogue_min catalogueMinSurface (2, 0, 1)
    (by decide) (by decide)
  exact ⟨H.1.trans (by decide), H.2.trans (by decide)⟩

/-- C6: for every non-empty rotation catalogue and every evaluator, the score
returned by the orientation search is never greater than the identity
rotation's score (which seeds the running best), and the running best score
is non-increasing across the iteration: the best after any prefix of the
catalogue bounds the best over the whole catalogue from above. -/
theorem metricEvaluate_monotone_best (tr : ℚ × ℚ × ℚ) (ev : Euler3DTransform → ℚ)
    (cat : List Rot) (hne : cat ≠ []) :
    (metricEvaluateSearch (centeredTransformInitializer tr) cat ev).2
      ≤ ev (centeredTransformInitializer tr)
    ∧ ∀ l₁ l₂ : List Rot, cat = l₁ ++ l₂ →
        (metricEvaluateSearch (centeredTransformInitializer tr) cat ev).2
          ≤ (metricEvaluateSearch (centeredTransformInitializer tr) l₁ ev).2 := by
  constructor
  · rw [metricEvaluateSearch_eq]
    exact bestFold_le_init _ cat _
  · intro l₁ l₂ hcat
    subst hcat
    rw [metricEvaluateSearch_eq, metricEvaluateSearch_eq]
    dsimp only
    rw [List.foldl_append]
    exact bestFold_le_init _ l₂ _

/-- Witness for C6 at the concrete scenario data: the returned score 0.3 is
no worse than the identity score 0.8, and the full-catalogue best is no worse
than the best after the one-element prefix. -/
theorem metricEvaluate_monotone_best_witness :
    (metricEvaluateSearch (centeredTransformInitializer (0, 0, 0))
        scenarioCatalogue scenarioEval).2
      ≤ scenarioEval (centeredTransformInitializer (0, 0, 0))
    ∧ (metricEvaluateSearch (centeredTransformInitializer (0, 0, 0))
        scenarioCatalogue scenarioEval).2
      ≤ (metricEvaluateSearch (centeredTransformInitializer (0, 0, 0))
          [(0, 0, 1)] scenarioEval).2 := by
  have H := metricEvaluate_monotone_best (0, 0, 0) scenarioEval scenarioCatalogue
    (by decide)
  exact ⟨H.1, H.2 [(0, 0, 1)] [(2, 0, 0), (2, 0, 1)] (by decide)⟩

/-- C7: the search is order-stable on exact ties because the comparison
against the running best is strict less-than.  First conjunct: if no
catalogue entry is strictly better than the identity baseline (in particular
when some entries tie with it), the identity wins.  Second conjunct: the
first catalogue entry that strictly beats the identity and every earlier
entry, and is at least as good as every later entry (in particular when a
later entry ties with it exactly), is the returned winner. -/
theorem orientation_first_seen_wins (tr : ℚ × ℚ × ℚ) (ev : Euler3DTransform → ℚ) :
    (∀ cat : List Rot,
      (∀ x ∈ cat, ev (centeredTransformInitializer tr)
          ≤ ev (setRotation (centeredTransformInitializer tr) x)) →
      metricEvaluateSearch (centeredTransformInitializer tr) cat ev
        = (centeredTransformInitializer tr, ev (centeredTransformInitializer tr)))
    ∧ (∀ (l₁ : List Rot) (r : Rot) (l₂ : List Rot),
      ev (setRotation (centeredTransformInitializer tr) r)
          < ev (centeredTransformInitializer tr) →
      (∀ x ∈ l₁, ev (setRotation (centeredTransformInitializer tr) r)
          < ev (setRotation (centeredTransformInitializer tr) x)) →
      (∀ x ∈ l₂, ev (setRotation (centeredTransformInitializer tr) r)
          ≤ ev (setRotation (centeredTransformInitializer tr) x)) →
      metricEvaluateSearch (centeredTransformInitializer tr) (l₁ ++ r :: l₂) ev
        = (setRotation (centeredTransformInitializer tr) r,
           ev (setRotation (centeredTransformInitializer tr) r))) := by
  constructor
  · intro cat h
    rw [metricEvaluateSearch_eq]
    rw [bestFold_seedMin _ cat _ (fun x hx => not_lt.mpr (h x hx))]
    rfl
  · intro l₁ r l₂ h0 h1 h2
    rw [metricEvaluateSearch_eq]
    rw [bestFold_firstMin _ r l₂ h2 l₁ _ h0 h1]

/-- Evaluator that scores both scenario candidates with the same value 0.3
and the identity with 0.8. -/
def tieEval (t : Euler3DTransform) : ℚ :=
  if t.rotation = ((0 : ℤ), (0 : ℤ), (0 : ℤ)) then 8/10 else 3/10

/-- Witness for C7 at a concrete exact tie: candidates (0,0,pi/2) and
(pi,0,0) both score 0.3; the first one encountered wins. -/
theorem orientation_first_seen_wins_witness :
    metricEvaluateSearch (centeredTransformInitializer (0, 0, 0))
        [(0, 0, 1), (2, 0, 0)] tieEval
      = (⟨(0, 0, 1), (0, 0, 0)⟩, 3/10) := by
  have H := (orientation_first_seen_wins (0, 0, 0) tieEval).2 [] (0, 0, 1)
    [(2, 0, 0)] (by norm_num [tieEval, setRotation, centeredTransformInitializer])
    (by simp) (by norm_num [tieEval, setRotation, centeredTransformInitializer])
  refine H.trans ?_
  norm_num [tieEval, setRotation, centeredTransformInitializer]

/-- C9: across one orientation-search invocation only the rotation parameters
of the transform are ever modified.  First conjunct: the translation of the
returned transform equals the input translation.  Second conjunct: the
transform held in the loop state keeps the input translation after any number
of iterations.  Third conjunct: the search result is unchanged if the
evaluator is replaced by one that forces the input translation, i.e. the
evaluator is only ever applied to transforms carrying the input
translation. -/
theorem orientation_translation_constant (t0 : Euler3DTransform)
    (cat : List Rot) (ev : Euler3DTransform → ℚ) :
    (metricEvaluateSearch t0 cat ev).1.translation = t0.translation
    ∧ (∀ l : List Rot,
        (List.foldl (orientationStep ev) (t0, ((0, 0, 0) : Rot), ev t0) l).1.translation
          = t0.translation)
    ∧ metricEvaluateSearch t0 cat ev
        = metricEvaluateSearch t0 cat (fun t => ev ⟨t.rotation, t0.translation⟩) := by
  refine ⟨?_, ?_, ?_⟩
  · rw [metricEvaluateSearch_eq]
    rfl
  · intro l
    exact foldl_orientationStep_translation ev l t0 _
  · rw [metricEvaluateSearch_eq, metricEvaluateSearch_eq]
    rfl

/-- Cosine of k quarter turns (an exact integer). -/
def cosq (k : ℤ) : ℤ :=
  if k % 4 = 0 then 1 else if k % 4 = 2 then -1 else 0

/-- Sine of k quarter turns (an exact integer). -/
def sinq (k : ℤ) : ℤ :=
  if k % 4 = 1 then 1 else if k % 4 = 3 then -1 else 0

/-- Modelled from the spec glossary ("rigid transform: rotation +
translation"): the standard rotation matrix about the x axis, for an angle of
a quarter turns.  The matrix semantics of rotations is owned by the external
library; for the quarter-turn angles of the catalogue it is exact integer
arithmetic. -/
def rotXMat (a : ℤ) : Fin 3 → Fin 3 → ℤ :=
  ![![1, 0, 0], ![0, cosq a, -sinq a], ![0, sinq a, cosq a]]

/-- Rotation matrix about the y axis, for an angle of b quarter turns. -/
def rotYMat (b : ℤ) : Fin 3 → Fin 3 → ℤ :=
  ![![cosq b, 0, sinq b], ![0, 1, 0], ![-sinq b, 0, cosq b]]

/-- Rotation matrix about the z axis, for an angle of c quarter turns. -/
def rotZMat (c : ℤ) : Fin 3 → Fin 3 → ℤ :=
  ![![cosq c, -sinq c, 0], ![sinq c, cosq c, 0], ![0, 0, 1]]

/-- Product of two 3x3 integer matrices. -/
def matMul3 (A B : Fin 3 → Fin 3 → ℤ) : Fin 3 → Fin 3 → ℤ :=
  fun i k => ∑ j : Fin 3, A i j * B j k

/-- The rotation matrix of an Euler angle triple, composed in the Z X Y
order used by the external Euler3D transform. -/
def eulerRotationMatrix (r : Rot) : Fin 3 → Fin 3 → ℤ :=
  matMul3 (rotZMat r.2.2) (matMul3 (rotXMat r.1) (rotYMat r.2.1))

/-- C10: the catalogue entry keyed "x=0, y=0, z=-90" holds the angle triple
(0,0,-pi) (i.e. (0,0,-2) quarter turns) rather than (0,0,-pi/2); the
catalogue therefore contains the two distinct triples (0,0,-pi) and (0,0,pi),
which denote the same physical rotation (equal rotation matrices), and no
evaluated candidate - identity included - denotes the physical rotation by
-90 degrees about z. -/
theorem allOrientations_z_minus90_typo :
    List.lookup "x=0, y=0, z=-90" allOrientations = some (0, 0, -2)
    ∧ ((0, 0, -2) : Rot) ≠ (0, 0, -1)
    ∧ ((0, 0, -2) : Rot) ∈ allOrientations.map Prod.snd
    ∧ ((0, 0, 2) : Rot) ∈ allOrientations.map Prod.snd
    ∧ ((0, 0, -2) : Rot) ≠ (0, 0, 2)
    ∧ eulerRotationMatrix (0, 0, -2) = eulerRotationMatrix (0, 0, 2)
    ∧ ∀ r ∈ (((0, 0, 0) : Rot) :: allOrientations.map Prod.snd),
        eulerRotationMatrix r ≠ eulerRotationMatrix (0, 0, -1) := by
  decide

/-- A 3D physical-space point, with exact rational coordinates. -/
abbrev Pt : Type := ℚ × ℚ × ℚ

/-- Squared Euclidean norm of a point, linalg.norm(point)**2. -/
def norm2 (p : Pt) : ℚ := p.1^2 + p.2.1^2 + p.2.2^2

/-- The slice assignment A[row, 0:3] = -2 * np.array(point): columns 0, 1, 2
of the given row receive the scaled coordinates; every other entry of the
matrix is untouched.  The fourth component of the vector literal is filler
that the guard never selects. -/
def setSphereRow (A : ℕ → Fin 4 → ℚ) (row : ℕ) (p : Pt) : ℕ → Fin 4 → ℚ :=
  fun i c =>
    if i = row ∧ (c : ℕ) < 3
    then ![(-2) * p.1, (-2) * p.2.1, (-2) * p.2.2, 0] c
    else A i c

/-- The construction loop "for row, point in enumerate(physical_points)":
write A[row, 0:3] and b[row] = -linalg.norm(point)**2 for each point in
turn. -/
def fillSystem : ℕ → List Pt → ((ℕ → Fin 4 → ℚ) × (ℕ → ℚ)) →
    ((ℕ → Fin 4 → ℚ) × (ℕ → ℚ))
  | _, [], Ab => Ab
  | row, p :: ps, Ab =>
    fillSystem (row + 1) ps
      (setSphereRow Ab.1 row p, Function.update Ab.2 row (-(norm2 p)))

/-- A = np.ones((len(points), 4)); b = np.zeros(len(points)); then the fill
loop.  Rows at or beyond len(points) keep their initial values and are never
consumed. -/
def sphereSystem (points : List Pt) : ((ℕ → Fin 4 → ℚ) × (ℕ → ℚ)) :=
  fillSystem 0 points (fun _ _ => 1, fun _ => 0)

/-- Dot product of a matrix row with a 4-vector of unknowns. -/
def rowDot (v u : Fin 4 → ℚ) : ℚ := ∑ c : Fin 4, v c * u c

/-- Squared residual norm of the first n equations of the system: the
quantity minimized by the external least-squares solver. -/
def lsqError (A : ℕ → Fin 4 → ℚ) (b : ℕ → ℚ) (n : ℕ) (u : Fin 4 → ℚ) : ℚ :=
  ∑ i in Finset.range n, (rowDot (A i) u - b i)^2

/-- The sphere fit of the notebook: build the system, hand it to the external
least-squares solver (res,_,_,_ = linalg.lstsq(A,b)), and read off the center
res[0:3] together with the radicand norm(res[0:3])**2 - res[3], whose square
root the notebook prints as the radius. -/
def sphereFit (solve : (ℕ → Fin 4 → ℚ) → (ℕ → ℚ) → (Fin 4 → ℚ))
    (points : List Pt) : Pt × ℚ :=
  let Ab := sphereSystem points
  let res := solve Ab.1 Ab.2
  ((res 0, res 1, res 2), (res 0)^2 + (res 1)^2 + (res 2)^2 - res 3)

/-- Rows below the current fill index are never modified by the fill loop. -/
lemma fillSystem_lt :
    ∀ (ps : List Pt) (k : ℕ) (Ab : (ℕ → Fin 4 → ℚ) × (ℕ → ℚ)) (i : ℕ), i < k →
      (fillSystem k ps Ab).1 i = Ab.1 i ∧ (fillSystem k ps Ab).2 i = Ab.2 i := by
  intro ps
  induction ps with
  | nil => intro k Ab i _; exact ⟨rfl, rfl⟩
  | cons p ps ih =>
    intro k Ab i hik
    have h := ih (k + 1)
      (setSphereRow Ab.1 k p, Function.update Ab.2 k (-(norm2 p))) i
      (Nat.lt_succ_of_lt hik)
    have hne : i ≠ k := Nat.ne_of_lt hik
    constructor
    · rw [show fillSystem k (p :: ps) Ab
        = fillSystem (k + 1) ps
            (setSphereRow Ab.1 k p, Function.update Ab.2 k (-(norm2 p))) from rfl]
      rw [h.1]
      funext c
      simp only [setSphereRow]
      rw [if_neg (fun hh => hne hh.1)]
    · rw [show fillSystem k (p :: ps) Ab
        = fillSystem (k + 1) ps
            (setSphereRow Ab.1 k p, Function.update Ab.2 k (-(norm2 p))) from rfl]
      rw [h.2]
      exact Function.update_noteq hne _ _

/-- Row k + j of the filled system, for j inside the point list: the A-row
carries the scaled coordinates of point j in its first three columns and its
initial value in the fourth, and the b-entry is the negated squared norm. -/
lemma fillSystem_get :
    ∀ (ps : List Pt) (k : ℕ) (Ab : (ℕ → Fin 4 → ℚ) × (ℕ → ℚ)) (j : ℕ)
      (h : j < ps.length),
      ((fillSystem k ps Ab).1 (k + j)
          = (fun c : Fin 4 => if (c : ℕ) < 3
              then ![(-2) * (ps.get ⟨j, h⟩).1, (-2) * (ps.get ⟨j, h⟩).2.1,
                     (-2) * (ps.get ⟨j, h⟩).2.2, 0] c
              else Ab.1 (k + j) c))
      ∧ (fillSystem k ps Ab).2 (k + j) = -(norm2 (ps.get ⟨j, h⟩)) := by
  intro ps
  induction ps with
  | nil => intro k Ab j h; exact absurd h (Nat.not_lt_zero j)
  | cons p ps ih =>
    intro k Ab j h
    cases j with
    | zero =>
      have hlt := fillSystem_lt ps (k + 1)
        (setSphereRow Ab.1 k p, Function.update Ab.2 k (-(norm2 p))) k
        (Nat.lt_succ_self k)
      constructor
      · show (fillSystem (k + 1) ps
          (setSphereRow Ab.1 k p, Function.update Ab.2 k (-(norm2 p)))).1 (k + 0) = _
        rw [show k + 0 = k from Nat.add_zero k, hlt.1]
        funext c
        dsimp only
        by_cases hc : (c : ℕ) < 3
        · simp [setSphereRow, hc]
        · simp [setSphereRow, hc]
      · show (fillSystem (k + 1) ps
          (setSphereRow Ab.1 k p, Function.update Ab.2 k (-(norm2 p)))).2 (k + 0) = _
        rw [show k + 0 = k from Nat.add_zero k, hlt.2]
        show Function.update Ab.2 k (-(norm2 p)) k = _
        rw [Function.update_same]
        rfl
    | succ j =>
      have h' : j < ps.length := Nat.lt_of_succ_lt_succ h
      have H := ih (k + 1)
        (setSphereRow Ab.1 k p, Function.update Ab.2 k (-(norm2 p))) j h'
      have harith : k + (j + 1) = (k + 1) + j := by omega
      constructor
      · show (fillSystem (k + 1) ps
          (setSphereRow Ab.1 k p, Function.update Ab.2 k (-(norm2 p)))).1 (k + (j + 1)) = _
        rw [harith, H.1]
        funext c
        dsimp only
        by_cases hc : (c : ℕ) < 3
        · simp [setSphereRow, hc]
        · simp [setSphereRow, hc, (show (k + 1) + j ≠ k by omega)]
      · show (fillSystem (k + 1) ps
          (setSphereRow Ab.1 k p, Function.update Ab.2 k (-(norm2 p)))).2 (k + (j + 1)) = _
        rw [harith, H.2]
        rfl

/-- Row i of the built system is exactly [-2 x_i, -2 y_i, -2 z_i, 1], and
entry i of the right-hand side is -(x_i^2 + y_i^2 + z_i^2): the fourth
column keeps the value 1 it was initialized with by np.ones. -/
lemma sphereSystem_spec (points : List Pt) (i : ℕ) (h : i < points.length) :
    (sphereSystem points).1 i
      = ![(-2) * (points.get ⟨i, h⟩).1, (-2) * (points.get ⟨i, h⟩).2.1,
          (-2) * (points.get ⟨i, h⟩).2.2, 1]
    ∧ (sphereSystem points).2 i = -(norm2 (points.get ⟨i, h⟩)) := by
  have H := fillSystem_get points 0 (fun _ _ => 1, fun _ => 0) i h
  rw [Nat.zero_add] at H
  unfold sphereSystem
  constructor
  · rw [H.1]
    funext c
    fin_cases c <;> rfl
  · exact H.2

/-- Expanded form of the row dot product. -/
lemma rowDot_eq (v u : Fin 4 → ℚ) :
    rowDot v u = v 0 * u 0 + v 1 * u 1 + v 2 * u 2 + v 3 * u 3 := by
  simp [rowDot, Fin.sum_univ_four]

/-- C2: for every solver and every point sequence, the sphere fitter builds
the N x 4 matrix whose row i is [-2 x_i, -2 y_i, -2 z_i, 1] and the
right-hand side b_i = -(x_i^2 + y_i^2 + z_i^2), hands exactly this system to
the external least-squares solver, and returns center = u[0:3] together with
the radicand |center|^2 - u[3] whose square root is the radius. -/
theorem sphereFit_construction (solve : (ℕ → Fin 4 → ℚ) → (ℕ → ℚ) → (Fin 4 → ℚ))
    (points : List Pt) :
    (∀ (i : ℕ) (h : i < points.length),
      (sphereSystem points).1 i
        = ![(-2) * (points.get ⟨i, h⟩).1, (-2) * (points.get ⟨i, h⟩).2.1,
            (-2) * (points.get ⟨i, h⟩).2.2, 1]
      ∧ (sphereSystem points).2 i
        = -((points.get ⟨i, h⟩).1 ^ 2 + (points.get ⟨i, h⟩).2.1 ^ 2
            + (points.get ⟨i, h⟩).2.2 ^ 2))
    ∧ sphereFit solve points
        = ((solve (sphereSystem points).1 (sphereSystem points).2 0,
            solve (sphereSystem points).1 (sphereSystem points).2 1,
            solve (sphereSystem points).1 (sphereSystem points).2 2),
           (solve (sphereSystem points).1 (sphereSystem points).2 0) ^ 2
             + (solve (sphereSystem points).1 (sphereSystem points).2 1) ^ 2
             + (solve (sphereSystem points).1 (sphereSystem points).2 2) ^ 2
             - solve (sphereSystem points).1 (sphereSystem points).2 3) := by
  constructor
  · intro i h
    exact sphereSystem_spec points i h
  · rfl

/-- Solver used in concrete sphere-fitter scenarios: constantly the vector
(0, 0, 0, -1), i.e. center at the origin and k = -1. -/
def degSolve : (ℕ → Fin 4 → ℚ) → (ℕ → ℚ) → (Fin 4 → ℚ) :=
  fun _ _ => ![0, 0, 0, -1]

/-- Witness for C2 at a one-point input and the constant solver: the built
row, the built right-hand side, and the returned center/radicand. -/
theorem sphereFit_construction_witness :
    (sphereSystem [((1 : ℚ), (0 : ℚ), (0 : ℚ))]).1 0 = ![-2, 0, 0, 1]
    ∧ (sphereSystem [((1 : ℚ), (0 : ℚ), (0 : ℚ))]).2 0 = -1
    ∧ sphereFit degSolve [((1 : ℚ), (0 : ℚ), (0 : ℚ))] = ((0, 0, 0), 1) := by
  have H := sphereFit_construction degSolve [((1 : ℚ), (0 : ℚ), (0 : ℚ))]
  have h0 := H.1 0 (by norm_num)
  refine ⟨?_, ?_, ?_⟩
  · rw [h0.1]
    funext c
    fin_cases c <;> norm_num
  · rw [h0.2]
    norm_num
  · rw [H.2]
    norm_num [degSolve]

/-- The three-point degenerate input of the C3 scenario: three points of the
unit sphere, all of them on a common plane. -/
def degPts : List Pt :=
  [((1 : ℚ), (0 : ℚ), (0 : ℚ)), ((0 : ℚ), (1 : ℚ), (0 : ℚ)),
   ((0 : ℚ), (0 : ℚ), (1 : ℚ))]

/-- The constant output of degSolve solves the three degenerate equations
exactly, so it satisfies the least-squares contract on degPts: scipy lstsq
would likewise return some exact solution of this rank-deficient system. -/
lemma degSolve_minimizes (u : Fin 4 → ℚ) :
    lsqError (sphereSystem degPts).1 (sphereSystem degPts).2 degPts.length
        (degSolve (sphereSystem degPts).1 (sphereSystem degPts).2)
      ≤ lsqError (sphereSystem degPts).1 (sphereSystem degPts).2 degPts.length u := by
  have h0 : lsqError (sphereSystem degPts).1 (sphereSystem degPts).2 degPts.length
      (degSolve (sphereSystem degPts).1 (sphereSystem degPts).2) = 0 := by
    simp +decide [lsqError, Finset.sum_range_succ, rowDot_eq, degSolve, degPts,
      sphereSystem, fillSystem, setSphereRow, norm2, Function.update]
  rw [h0]
  refine Finset.sum_nonneg ?_
  intro i _
  positivity

/-- C3 counterexample: on exactly 3 points (fewer than 4, coplanar, matrix
rank-deficient) the fitter raises nothing: with a solver that satisfies the
least-squares contract on this very system (degSolve_minimizes) it silently
returns the center (0,0,0) and radicand 1. -/
theorem sphereFit_three_points_no_error :
    degPts.length = 3 ∧ sphereFit degSolve degPts = ((0, 0, 0), 1) := by
  constructor
  · rfl
  · norm_num [sphereFit, degSolve]

/-- C3 (amended): the fitter performs no input validation whatsoever: on
every input with fewer than 4 points it still builds the system, invokes the
solver, and returns the center/radicand derived from the solver output,
instead of failing with a degenerate-input error. -/
theorem sphereFit_no_validation (solve : (ℕ → Fin 4 → ℚ) → (ℕ → ℚ) → (Fin 4 → ℚ))
    (pts : List Pt) (hlt : pts.length < 4) :
    sphereFit solve pts
      = ((solve (sphereSystem pts).1 (sphereSystem pts).2 0,
          solve (sphereSystem pts).1 (sphereSystem pts).2 1,
          solve (sphereSystem pts).1 (sphereSystem pts).2 2),
         (solve (sphereSystem pts).1 (sphereSystem pts).2 0) ^ 2
           + (solve (sphereSystem pts).1 (sphereSystem pts).2 1) ^ 2
           + (solve (sphereSystem pts).1 (sphereSystem pts).2 2) ^ 2
           - solve (sphereSystem pts).1 (sphereSystem pts).2 3) := rfl

/-- Witness for the amended C3 at a concrete two-point input. -/
theorem sphereFit_no_validation_witness :
    sphereFit degSolve [((1 : ℚ), (0 : ℚ), (0 : ℚ)), ((0 : ℚ), (1 : ℚ), (0 : ℚ))]
      = ((0, 0, 0), 1) := by
  have H := sphereFit_no_validation degSolve
    [((1 : ℚ), (0 : ℚ), (0 : ℚ)), ((0 : ℚ), (1 : ℚ), (0 : ℚ))] (by norm_num)
  rw [H]
  norm_num [degSolve]

/-- Solver returning center (0,0,0) with k = 1, so that the radicand
|center|^2 - k is negative. -/
def badSolve : (ℕ → Fin 4 → ℚ) → (ℕ → ℚ) → (Fin 4 → ℚ) :=
  fun _ _ => ![0, 0, 0, 1]

/-- Four points handed to the bad solver in the C4 scenario. -/
def badPts : List Pt :=
  [((1 : ℚ), (0 : ℚ), (0 : ℚ)), ((0 : ℚ), (1 : ℚ), (0 : ℚ)),
   ((0 : ℚ), (0 : ℚ), (1 : ℚ)), ((1 : ℚ), (1 : ℚ), (1 : ℚ))]

/-- C4 counterexample: on an input whose solved u = (0,0,0,1) has
|center|^2 - k = -1 < 0, the fitter raises nothing: it silently returns the
pair ((0,0,0), -1) and the notebook proceeds to take np.sqrt of a negative
number. -/
theorem sphereFit_negative_radicand_no_error :
    sphereFit badSolve badPts = ((0, 0, 0), -1) ∧ ((-1 : ℚ) < 0) := by
  constructor
  · norm_num [sphereFit, badSolve]
  · norm_num

/-- C4 (amended): when the solver output makes the radicand |center|^2 - k
negative, the fitter does not fail: it returns exactly the solver-derived
center and negative radicand, and the real square root applied downstream
degenerates to 0 (numpy would produce nan) instead of any error being
raised. -/
theorem sphereFit_sqrt_unguarded (solve : (ℕ → Fin 4 → ℚ) → (ℕ → ℚ) → (Fin 4 → ℚ))
    (pts : List Pt) (hneg : (sphereFit solve pts).2 < 0) :
    sphereFit solve pts
      = ((solve (sphereSystem pts).1 (sphereSystem pts).2 0,
          solve (sphereSystem pts).1 (sphereSystem pts).2 1,
          solve (sphereSystem pts).1 (sphereSystem pts).2 2),
         (solve (sphereSystem pts).1 (sphereSystem pts).2 0) ^ 2
           + (solve (sphereSystem pts).1 (sphereSystem pts).2 1) ^ 2
           + (solve (sphereSystem pts).1 (sphereSystem pts).2 2) ^ 2
           - solve (sphereSystem pts).1 (sphereSystem pts).2 3)
    ∧ Real.sqrt (((sphereFit solve pts).2 : ℚ) : ℝ) = 0 := by
  refine ⟨rfl, ?_⟩
  refine Real.sqrt_eq_zero_of_nonpos ?_
  exact_mod_cast le_of_lt hneg

/-- Witness for the amended C4 at the concrete bad-solver input. -/
theorem sphereFit_sqrt_unguarded_witness :
    sphereFit badSolve badPts
      = ((badSolve (sphereSystem badPts).1 (sphereSystem badPts).2 0,
          badSolve (sphereSystem badPts).1 (sphereSystem badPts).2 1,
          badSolve (sphereSystem badPts).1 (sphereSystem badPts).2 2),
         (badSolve (sphereSystem badPts).1 (sphereSystem badPts).2 0) ^ 2
           + (badSolve (sphereSystem badPts).1 (sphereSystem badPts).2 1) ^ 2
           + (badSolve (sphereSystem badPts).1 (sphereSystem badPts).2 2) ^ 2
           - badSolve (sphereSystem badPts).1 (sphereSystem badPts).2 3)
    ∧ Real.sqrt (((sphereFit badSolve badPts).2 : ℚ) : ℝ) = 0 := by
  refine sphereFit_sqrt_unguarded badSolve badPts ?_
  norm_num [sphereFit, badSolve]

/-- C8: round-trip.  If all points lie exactly on the sphere with center c
and radius r (at least 10 of them, non-degenerate in the sense that the
built matrix separates 4-vectors on the first N rows), then any solver
satisfying the least-squares contract returns exactly
u = (c_x, c_y, c_z, |c|^2 - r^2), and the fitter recovers exactly the center
c and the radicand r^2, whose real square root is exactly r. -/
theorem sphereFit_roundtrip (solve : (ℕ → Fin 4 → ℚ) → (ℕ → ℚ) → (Fin 4 → ℚ))
    (pts : List Pt) (c : Pt) (r : ℚ)
    (hlen : 10 ≤ pts.length) (hr : 0 ≤ r)
    (hsph : ∀ p ∈ pts,
      (p.1 - c.1) ^ 2 + (p.2.1 - c.2.1) ^ 2 + (p.2.2 - c.2.2) ^ 2 = r ^ 2)
    (hinj : ∀ u v : Fin 4 → ℚ,
      (∀ i < pts.length,
        rowDot ((sphereSystem pts).1 i) u = rowDot ((sphereSystem pts).1 i) v) →
      u = v)
    (hsolve : ∀ u : Fin 4 → ℚ,
      lsqError (sphereSystem pts).1 (sphereSystem pts).2 pts.length
          (solve (sphereSystem pts).1 (sphereSystem pts).2)
        ≤ lsqError (sphereSystem pts).1 (sphereSystem pts).2 pts.length u) :
    solve (sphereSystem pts).1 (sphereSystem pts).2
        = ![c.1, c.2.1, c.2.2, norm2 c - r ^ 2]
    ∧ sphereFit solve pts = ((c.1, c.2.1, c.2.2), r ^ 2)
    ∧ Real.sqrt (((sphereFit solve pts).2 : ℚ) : ℝ) = (r : ℝ) := by
  have hterm : ∀ (i : ℕ) (hi : i < pts.length),
      rowDot ((sphereSystem pts).1 i) ![c.1, c.2.1, c.2.2, norm2 c - r ^ 2]
        = (sphereSystem pts).2 i := by
    intro i hi
    have hs := sphereSystem_spec pts i hi
    have hp := hsph (pts.get ⟨i, hi⟩) (List.get_mem pts i hi)
    rw [hs.1, hs.2, rowDot_eq]
    simp only [Matrix.cons_val_zero, Matrix.cons_val_one, Matrix.head_cons,
      Matrix.cons_val_two, Matrix.cons_val_three, Matrix.tail_cons, norm2]
    linear_combination hp
  have h0 : lsqError (sphereSystem pts).1 (sphereSystem pts).2 pts.length
      ![c.1, c.2.1, c.2.2, norm2 c - r ^ 2] = 0 := by
    refine Finset.sum_eq_zero ?_
    intro i hi
    rw [hterm i (Finset.mem_range.mp hi)]
    simp
  have hge : 0 ≤ lsqError (sphereSystem pts).1 (sphereSystem pts).2 pts.length
      (solve (sphereSystem pts).1 (sphereSystem pts).2) := by
    refine Finset.sum_nonneg ?_
    intro i _
    positivity
  have hle : lsqError (sphereSystem pts).1 (sphereSystem pts).2 pts.length
      (solve (sphereSystem pts).1 (sphereSystem pts).2) ≤ 0 := by
    have := hsolve ![c.1, c.2.1, c.2.2, norm2 c - r ^ 2]
    rw [h0] at this
    exact this
  have heq0 : lsqError (sphereSystem pts).1 (sphereSystem pts).2 pts.length
      (solve (sphereSystem pts).1 (sphereSystem pts).2) = 0 := le_antisymm hle hge
  have hzero := (Finset.sum_eq_zero_iff_of_nonneg
    (fun (i : ℕ) _ => sq_nonneg (rowDot ((sphereSystem pts).1 i)
      (solve (sphereSystem pts).1 (sphereSystem pts).2)
        - (sphereSystem pts).2 i))).mp heq0
  have heqrow : ∀ i < pts.length,
      rowDot ((sphereSystem pts).1 i) (solve (sphereSystem pts).1 (sphereSystem pts).2)
        = (sphereSystem pts).2 i := by
    intro i hi
    have h := hzero i (Finset.mem_range.mpr hi)
    have h' := pow_eq_zero_iff (n := 2) (by norm_num) |>.mp h
    exact sub_eq_zero.mp h'
  have husolve : solve (sphereSystem pts).1 (sphereSystem pts).2
      = ![c.1, c.2.1, c.2.2, norm2 c - r ^ 2] := by
    refine hinj _ _ ?_
    intro i hi
    rw [heqrow i hi, hterm i hi]
  have hfit : sphereFit solve pts
      = ((solve (sphereSystem pts).1 (sphereSystem pts).2 0,
          solve (sphereSystem pts).1 (sphereSystem pts).2 1,
          solve (sphereSystem pts).1 (sphereSystem pts).2 2),
         (solve (sphereSystem pts).1 (sphereSystem pts).2 0) ^ 2
           + (solve (sphereSystem pts).1 (sphereSystem pts).2 1) ^ 2
           + (solve (sphereSystem pts).1 (sphereSystem pts).2 2) ^ 2
           - solve (sphereSystem pts).1 (sphereSystem pts).2 3) := rfl
  have hpair : sphereFit solve pts = ((c.1, c.2.1, c.2.2), r ^ 2) := by
    rw [hfit, husolve]
    simp only [Matrix.cons_val_zero, Matrix.cons_val_one, Matrix.head_cons,
      Matrix.cons_val_two, Matrix.cons_val_three, Matrix.tail_cons, norm2]
    refine Prod.ext rfl ?_
    ring
  refine ⟨husolve, hpair, ?_⟩
  rw [hpair]
  push_cast
  exact Real.sqrt_sq (by exact_mod_cast hr)

/-- Ten exact rational points on the sphere with center (1,2,3) and
radius 5. -/
def wpts : List Pt :=
  [((6 : ℚ), (2 : ℚ), (3 : ℚ)), ((-4 : ℚ), (2 : ℚ), (3 : ℚ)),
   ((1 : ℚ), (7 : ℚ), (3 : ℚ)), ((1 : ℚ), (-3 : ℚ), (3 : ℚ)),
   ((1 : ℚ), (2 : ℚ), (8 : ℚ)), ((1 : ℚ), (2 : ℚ), (-2 : ℚ)),
   ((4 : ℚ), (6 : ℚ), (3 : ℚ)), ((4 : ℚ), (-2 : ℚ), (3 : ℚ)),
   ((-2 : ℚ), (6 : ℚ), (3 : ℚ)), ((1 : ℚ), (6 : ℚ), (6 : ℚ))]

/-- The exact least-squares solution for wpts: center (1,2,3) and
k = |center|^2 - 25 = -11. -/
def wSolve : (ℕ → Fin 4 → ℚ) → (ℕ → ℚ) → (Fin 4 → ℚ) :=
  fun _ _ => ![1, 2, 3, -11]

/-- Witness for C8 at the ten concrete points: the fit recovers center
(1,2,3) and radius 5 exactly. -/
theorem sphereFit_roundtrip_witness :
    sphereFit wSolve wpts = ((1, 2, 3), 25)
    ∧ Real.sqrt (((sphereFit wSolve wpts).2 : ℚ) : ℝ) = ((5 : ℚ) : ℝ) := by
  have hA0 : (sphereSystem wpts).1 0 = ![-12, -4, -6, 1] := by
    rw [(sphereSystem_spec wpts 0 (by norm_num [wpts])).1]
    show ![(-2) * (6 : ℚ), (-2) * (2 : ℚ), (-2) * (3 : ℚ), 1] = _
    funext cc
    fin_cases cc <;> norm_num
  have hA1 : (sphereSystem wpts).1 1 = ![8, -4, -6, 1] := by
    rw [(sphereSystem_spec wpts 1 (by norm_num [wpts])).1]
    show ![(-2) * (-4 : ℚ), (-2) * (2 : ℚ), (-2) * (3 : ℚ), 1] = _
    funext cc
    fin_cases cc <;> norm_num
  have hA2 : (sphereSystem wpts).1 2 = ![-2, -14, -6, 1] := by
    rw [(sphereSystem_spec wpts 2 (by norm_num [wpts])).1]
    show ![(-2) * (1 : ℚ), (-2) * (7 : ℚ), (-2) * (3 : ℚ), 1] = _
    funext cc
    fin_cases cc <;> norm_num
  have hA3 : (sphereSystem wpts).1 3 = ![-2, 6, -6, 1] := by
    rw [(sphereSystem_spec wpts 3 (by norm_num [wpts])).1]
    show ![(-2) * (1 : ℚ), (-2) * (-3 : ℚ), (-2) * (3 : ℚ), 1] = _
    funext cc
    fin_cases cc <;> norm_num
  have hA4 : (sphereSystem wpts).1 4 = ![-2, -4, -16, 1] := by
    rw [(sphereSystem_spec wpts 4 (by norm_num [wpts])).1]
    show ![(-2) * (1 : ℚ), (-2) * (2 : ℚ), (-2) * (8 : ℚ), 1] = _
    funext cc
    fin_cases cc <;> norm_num
  have hA5 : (sphereSystem wpts).1 5 = ![-2, -4, 4, 1] := by
    rw [(sphereSystem_spec wpts 5 (by norm_num [wpts])).1]
    show ![(-2) * (1 : ℚ), (-2) * (2 : ℚ), (-2) * (-2 : ℚ), 1] = _
    funext cc
    fin_cases cc <;> norm_num
  have hinj : ∀ u v : Fin 4 → ℚ,
      (∀ i < wpts.length,
        rowDot ((sphereSystem wpts).1 i) u = rowDot ((sphereSystem wpts).1 i) v) →
      u = v := by
    intro u v h
    have e0 := h 0 (by norm_num [wpts])
    have e1 := h 1 (by norm_num [wpts])
    have e2 := h 2 (by norm_num [wpts])
    have e3 := h 3 (by norm_num [wpts])
    have e4 := h 4 (by norm_num [wpts])
    have e5 := h 5 (by norm_num [wpts])
    rw [hA0, rowDot_eq, rowDot_eq] at e0
    rw [hA1, rowDot_eq, rowDot_eq] at e1
    rw [hA2, rowDot_eq, rowDot_eq] at e2
    rw [hA3, rowDot_eq, rowDot_eq] at e3
    rw [hA4, rowDot_eq, rowDot_eq] at e4
    rw [hA5, rowDot_eq, rowDot_eq] at e5
    norm_num at e0 e1 e2 e3 e4 e5
    have c0 : u 0 = v 0 := by linarith
    have c1 : u 1 = v 1 := by linarith
    have c2 : u 2 = v 2 := by linarith
    have c3 : u 3 = v 3 := by linarith
    funext cc
    fin_cases cc
    exacts [c0, c1, c2, c3]
  have hzero : lsqError (sphereSystem wpts).1 (sphereSystem wpts).2 wpts.length
      ![1, 2, 3, -11] = 0 := by
    refine Finset.sum_eq_zero ?_
    intro i hi
    have hi10 : i < 10 := Finset.mem_range.mp hi
    interval_cases i <;>
      · rw [rowDot_eq,
          (sphereSystem_spec wpts _ (by norm_num [wpts])).1,
          (sphereSystem_spec wpts _ (by norm_num [wpts])).2]
        norm_num [wpts, norm2]
  have hsolve : ∀ u : Fin 4 → ℚ,
      lsqError (sphereSystem wpts).1 (sphereSystem wpts).2 wpts.length
          (wSolve (sphereSystem wpts).1 (sphereSystem wpts).2)
        ≤ lsqError (sphereSystem wpts).1 (sphereSystem wpts).2 wpts.length u := by
    intro u
    have hnn : 0 ≤ lsqError (sphereSystem wpts).1 (sphereSystem wpts).2 wpts.length u := by
      refine Finset.sum_nonneg ?_
      intro i _
      positivity
    have hz : lsqError (sphereSystem wpts).1 (sphereSystem wpts).2 wpts.length
        (wSolve (sphereSystem wpts).1 (sphereSystem wpts).2) = 0 := hzero
    rw [hz]
    exact hnn
  have H := sphereFit_roundtrip wSolve wpts (1, 2, 3) 5 (by norm_num [wpts])
    (by norm_num)
    (by
      intro p hp
      fin_cases hp <;> norm_num)
    hinj hsolve
  refine ⟨H.2.1.trans (by norm_num), H.2.2⟩
